import Mathlib

/-!
A shallow embedding of the core of the HLF-CPIR private-information-retrieval
service (Go sources: the REST/chaincode servers' `initLedger`, `getMetadata`,
`publicQuery`, `pirQuery`, the parameter utilities `ChooseLogN`,
`CalcSlotsPerRec`, `BuildParamsFromHint`, and the client-side
`EncryptQueryBase64` / `DecryptResult`).

Conventions of the embedding:
* byte sequences are `List Nat` (each entry a byte value);
* SIMD plaintext vectors are `List Nat` of length `N = 2^logN`, one slot per
  entry, values taken modulo the plaintext modulus `t`;
* the BGV library itself (parameter validation, encode/encrypt/decrypt) is
  external to the repository: calls into it are oracles passed as arguments
  (`lib`, `genResult`, `encodeOK`, `jsonValid`), while everything the Go code
  computes around those calls is modelled directly;
* the homomorphic ciphertext×plaintext SIMD product decrypts to the slot-wise
  product modulo `t`; it is modelled by `slotProduct`;
* a Go `panic` (out-of-bounds slice) is modelled by an `Option` result being
  `none`;
* fallible Go functions returning `(T, error)` become `Except E T`.
-/

deriving instance DecidableEq for Except

namespace CPIR

/-! ### Parameter utilities (internal/utils/utils.go) -/

/-- Errors of `ChooseLogN` (utils.go): `invalid inputs` and `cannot fit DB`. -/
inductive UtilError
  | invalidInputs
  | capacityExceeded
deriving DecidableEq, Repr

/-- The loop body of `ChooseLogN`: first `logN` in the candidate list with
`requiredSlots ≤ 2^logN` (utils.go:98-104). -/
def chooseLogNLoop (requiredSlots : Int) : List Nat → Option Nat
  | [] => none
  | logN :: rest =>
    if requiredSlots ≤ (2 : Int) ^ logN then some logN
    else chooseLogNLoop requiredSlots rest

/-- The candidate ring-degree exponents `MinLogN = 13 .. MaxLogN = 15`. -/
def supportedLogN : List Nat := [13, 14, 15]

/-- Two's-complement wrap of an integer into the `int64` range
`[-2^63, 2^63)`: the value of a Go `int` arithmetic result. -/
def wrap64 (x : Int) : Int := (x + 2 ^ 63) % 2 ^ 64 - 2 ^ 63

/-- `ChooseLogN` (utils.go:88-107): smallest feasible `logN` with
`requiredSlots ≤ 2^logN`, error when inputs are non-positive or nothing
fits. `requiredSlots := n * slotsPerRec` is a Go machine-int product, so it
wraps at 64 bits. -/
def ChooseLogN (n slotsPerRec : Int) : Except UtilError Nat :=
  if n ≤ 0 ∨ slotsPerRec ≤ 0 then .error .invalidInputs
  else
    match chooseLogNLoop (wrap64 (n * slotsPerRec)) supportedLogN with
    | some logN => .ok logN
    | none => .error .capacityExceeded

/-- `CalcSlotsPerRec` (utils.go:110-127): slot width is the longest record
length rounded up to a multiple of 8, with minimum 8. -/
def CalcSlotsPerRec (records : List (List Nat)) : Nat :=
  let maxLen := records.foldl (fun m r => if r.length > m then r.length else m) 0
  let slotsPerRec := ((maxLen + 7) / 8) * 8
  if slotsPerRec = 0 then 8 else slotsPerRec

/-! ### BGV parameters (bgv.Parameters, utils.BGVParamHint) -/

/-- `utils.BGVParamHint`: optional inputs for building parameters. -/
structure BGVParamHint where
  logN : Int
  logQi : List Nat
  logPi : List Nat
  t : Nat
deriving DecidableEq, Repr

/-- `bgv.ParametersLiteral`: the literal handed to the lattigo library. -/
structure ParametersLiteral where
  logN : Int
  logQ : List Nat
  logP : List Nat
  t : Nat
deriving DecidableEq, Repr

/-- The published part of `bgv.Parameters` built by the library. -/
structure Parameters where
  logN : Nat
  logQi : List Nat
  logPi : List Nat
  t : Nat
deriving DecidableEq, Repr

/-- `params.MaxSlots() = N = 2^logN` (for BGV the slot count equals the ring
degree). -/
def Parameters.maxSlots (p : Parameters) : Nat := 2 ^ p.logN

/-- `BuildParamsFromHint` (utils.go:46-68): applies defaults
(`t = 65537`, `logQi = [54]`, `logPi = [54]`), rejects `logN ≤ 0`, then calls
the library constructor `bgv.NewParametersFromLiteral` (modelled by the
oracle `lib`). -/
def BuildParamsFromHint (lib : ParametersLiteral → Except Unit Parameters)
    (h : BGVParamHint) : Except Unit Parameters :=
  if h.logN ≤ 0 then .error ()
  else
    lib { logN := h.logN
        , t := if h.t = 0 then 65537 else h.t
        , logQ := if h.logQi.length > 0 then h.logQi else [54]
        , logP := if h.logPi.length > 0 then h.logPi else [54] }

/-- An always-succeeding library oracle used to instantiate concrete runs:
it accepts the literal and publishes its fields. -/
def libOk : ParametersLiteral → Except Unit Parameters :=
  fun lit => .ok { logN := lit.logN.toNat, logQi := lit.logQ, logPi := lit.logP, t := lit.t }

/-! ### Slot-vector write loops

Both the database pack loop and the selector build loop write a contiguous
run of slots of a zero-initialised vector:
`for i := 0; i < c; i++ { v[start+i] = f(i) }`. -/

/-- `writeLoop v start f c` performs `v[start+i] = f i` for `i = 0 .. c-1`. -/
def writeLoop (v : List Nat) (start : Nat) (f : Nat → Nat) : Nat → List Nat
  | 0 => v
  | c + 1 => (writeLoop v start f c).set (start + c) (f c)

/-- The inner pack loop (`for i := 0; i < len(recBytes) && i < slotsPerRec`):
write `recBytes[i]` into `packed[start+i]`. -/
def packRecord (packed : List Nat) (start : Nat) (recBytes : List Nat)
    (slotsPerRec : Nat) : List Nat :=
  writeLoop packed start (fun i => recBytes.getD i 0) (min recBytes.length slotsPerRec)

/-- The outer pack loop over `records` with running `recIdx`; `break` when the
window `[recIdx*s, recIdx*s+s)` would leave the vector. -/
def packFrom (slotsPerRec N : Nat) : List (List Nat) → Nat → List Nat → List Nat
  | [], _, packed => packed
  | recBytes :: rest, recIdx, packed =>
    let start := recIdx * slotsPerRec
    let stop := start + slotsPerRec
    if stop > N then packed
    else packFrom slotsPerRec N rest (recIdx + 1) (packRecord packed start recBytes slotsPerRec)

/-- The pack step of `initLedger` (part_001:216-233, on-chain main.go:114-130):
a zero vector of `N` slots filled window by window with the record bytes. -/
def pack (records : List (List Nat)) (slotsPerRec N : Nat) : List Nat :=
  packFrom slotsPerRec N records 0 (List.replicate N 0)

/-! ### Server state and initLedger (part_001) -/

/-- `LedgerState` (part_001:33-43): params, in-memory `m_DB` plaintext (its
decoded slot vector; `none` models the nil pointer), record count, slot
width, cached records. -/
structure LedgerState where
  params : Parameters
  m_DB : Option (List Nat)
  nRecords : Nat
  slotsPerRec : Nat
  records : List (List Nat)
deriving DecidableEq, Repr

/-- The zero value of `LedgerState` before any `init`. -/
def initialState : LedgerState :=
  { params := { logN := 0, logQi := [], logPi := [], t := 0 }
  , m_DB := none, nRecords := 0, slotsPerRec := 0, records := [] }

/-- The failure points of `initLedger`, in program order. -/
inductive InitError
  | chooseLogNFailed
  | paramsFailed
  | genFailed
  | capacityExceeded
  | encodeFailed
deriving DecidableEq, Repr

/-- The logN fallback of `initLedger` (part_001:171-181): when the caller
passes `logN ≤ 0`, auto-select via `ChooseLogN n sGuess` with
`sGuess = ((maxJSON+7)/8)*8` (Go integer division). -/
def resolveLogN (n maxJSON logN : Int) : Except InitError Int :=
  let sGuess := ((maxJSON + 7).tdiv 8) * 8
  if logN ≤ 0 then
    match ChooseLogN n sGuess with
    | .ok chosen => .ok (chosen : Int)
    | .error _ => .error .chooseLogNFailed
  else .ok logN

/-- `LedgerState.initLedger` (part_001:167-269). The external collaborators
are oracles: `lib` (lattigo parameter constructor), `genResult` (outcome of
`gen_records.GenerateRecords`), `encodeOK` (outcome of `enc.Encode`). The
function mutates the state field by field exactly where the Go code assigns,
and returns the state as left behind together with the error, if any. -/
def initLedger (st : LedgerState) (n maxJSON logN : Int)
    (logQi logPi : List Nat) (t : Nat)
    (lib : ParametersLiteral → Except Unit Parameters)
    (genResult : Except Unit (List (List Nat)))
    (encodeOK : Bool) : LedgerState × Option InitError :=
  match resolveLogN n maxJSON logN with
  | .error e => (st, some e)
  | .ok logNr =>
    match BuildParamsFromHint lib { logN := logNr, logQi := logQi, logPi := logPi, t := t } with
    | .error _ => (st, some .paramsFailed)
    | .ok p =>
      match genResult with
      | .error _ => ({ st with params := p }, some .genFailed)
      | .ok gen =>
        if gen.length * CalcSlotsPerRec gen > p.maxSlots then
          ({ st with
              params := p,
              records := gen,
              nRecords := gen.length,
              slotsPerRec := CalcSlotsPerRec gen }, some .capacityExceeded)
        else if encodeOK then
          ({ st with
              params := p,
              records := gen,
              nRecords := gen.length,
              slotsPerRec := CalcSlotsPerRec gen,
              m_DB := some (pack gen (CalcSlotsPerRec gen) p.maxSlots) }, none)
        else
          ({ st with
              params := p,
              records := gen,
              nRecords := gen.length,
              slotsPerRec := CalcSlotsPerRec gen }, some .encodeFailed)

/-! ### Read methods (part_001:282-428) -/

/-- The metadata struct marshalled by `getMetadata`. -/
structure Metadata where
  n : Nat
  record_s : Nat
  logN : Nat
  N : Nat
  t : Nat
  logQi : List Nat
  logPi : List Nat
deriving DecidableEq, Repr

/-- Errors surfaced by the read methods. -/
inductive QueryError
  | notInitialized
  | invalidCiphertext
  | invalidArguments
  | notFound
deriving DecidableEq, Repr

/-- `getMetadata` (part_001:282-310): reads the current fields, no
initialization guard. -/
def getMetadata (st : LedgerState) : Except QueryError Metadata :=
  .ok { n := st.nRecords, record_s := st.slotsPerRec, logN := st.params.logN
      , N := 2 ^ st.params.logN, t := st.params.t
      , logQi := st.params.logQi, logPi := st.params.logPi }

/-- The slot-wise content of the homomorphic SIMD product `ct_q ⊡ m_DB`
(values multiply slot by slot modulo the plaintext modulus `t`). -/
def slotProduct (t : Nat) (a b : List Nat) : List Nat :=
  List.zipWith (fun x y => x * y % t) a b

/-- `pirQuery` (part_001:312-358): guarded by `m_DB == nil`; `query = none`
models a base64/unmarshal failure of the incoming ciphertext, `query = some q`
the slot vector the ciphertext encrypts. The result is the slot-wise
content of the returned response ciphertext. -/
def pirQuery (st : LedgerState) (query : Option (List Nat)) : Except QueryError (List Nat) :=
  match st.m_DB with
  | none => .error .notInitialized
  | some db =>
    match query with
    | none => .error .invalidCiphertext
    | some q => .ok (slotProduct st.params.t q db)

/-- A decimal digit. -/
def digitVal (c : Char) : Option Nat :=
  if '0' ≤ c ∧ c ≤ '9' then some (c.toNat - '0'.toNat) else none

/-- Digit-folding core of `strconv.Atoi`. -/
def parseNatDigitsAux : List Char → Nat → Option Nat
  | [], acc => some acc
  | c :: rest, acc =>
    match digitVal c with
    | none => none
    | some d => parseNatDigitsAux rest (acc * 10 + d)

/-- Unsigned decimal parse; `none` on empty input or a non-digit. -/
def parseNatDigits (cs : List Char) : Option Nat :=
  if cs.isEmpty then none else parseNatDigitsAux cs 0

/-- `strconv.Atoi`: optional sign then decimal digits (overflow ignored:
record keys carry 3 digits). -/
def goAtoi : List Char → Option Int
  | [] => none
  | '-' :: rest => (parseNatDigits rest).map (fun v => -(v : Int))
  | '+' :: rest => (parseNatDigits rest).map (fun v => (v : Int))
  | cs => (parseNatDigits cs).map (fun v => (v : Int))

/-- `publicQuery` (part_001:414-428) and the identical `PublicQueryCTI`
case (part_000:71-89): parse the index from `key[len(key)-3:]` — a Go slice
that panics (`none`) when the key has fewer than 3 characters — then answer
`not found` past the record list, else the raw record. -/
def publicQuery (st : LedgerState) (key : List Char) :
    Option (Except QueryError (List Nat)) :=
  if key.length < 3 then none
  else
    match goAtoi (key.drop (key.length - 3)) with
    | none => some (.error .invalidArguments)
    | some idx =>
      if idx < 0 then some (.error .invalidArguments)
      else if (st.records.length : Int) ≤ idx then some (.error .notFound)
      else some (.ok (st.records.getD idx.toNat []))

/-! ### Client side (part_004: EncryptQueryBase64, DecryptResult) -/

/-- Client-side errors of part_004. -/
inductive ClientError
  | outOfRange
  | capacityExceeded
  | shortVector
  | notValidJSON
deriving DecidableEq, Repr

/-- The selector construction of `EncryptQueryBase64` (part_004:67-135):
index guards, capacity guard, then the one-hot-window vector
`vec[index*s + i] = 1` for `i < s` over `N` slots. The returned vector is the
slot content the client encrypts. -/
def EncryptQueryVec (N : Nat) (index dbSize slotsPerRec : Nat) :
    Except ClientError (List Nat) :=
  if dbSize ≤ index then .error .outOfRange
  else if dbSize * slotsPerRec > N then .error .capacityExceeded
  else
    let startSlot := index * slotsPerRec
    if startSlot + slotsPerRec > N then .error .outOfRange
    else .ok (writeLoop (List.replicate N 0) startSlot (fun _ => 1) slotsPerRec)

/-- A Go slice expression `l[start:stop]`: `none` models the bounds panic. -/
def goSlice (l : List Nat) (start stop : Nat) : Option (List Nat) :=
  if start ≤ stop ∧ stop ≤ l.length then some ((l.drop start).take (stop - start))
  else none

/-- The byte-collection loop of `DecryptResult` (part_004:187-194): walk the
window, stop at the first zero slot, cast each slot to a byte. -/
def collectBytes : List Nat → List Nat
  | [] => []
  | v :: rest => if v = 0 then [] else v % 256 :: collectBytes rest

/-- `cpir.Decoded` (part_004:141-144). -/
structure Decoded where
  intValue : Nat
  jsonString : List Nat
deriving DecidableEq, Repr

/-- Steps 3-4 of `DecryptResult` (part_004:155-214), applied to the decoded
slot vector `plainvec`: the length check, the window slice (Go panic when it
leaves the vector: result `none`), first-zero-terminated byte collection,
then either the single-slot integer or the JSON-validated byte payload.
`jsonValid` is the `json.Valid` oracle. -/
def DecryptResult (plainvec : List Nat) (index dbSize slotsPerRecord : Nat)
    (jsonValid : List Nat → Bool) : Option (Except ClientError Decoded) :=
  if plainvec.length < dbSize * slotsPerRecord then some (.error .shortVector)
  else
    let start := index * slotsPerRecord
    let stop := start + slotsPerRecord
    match goSlice plainvec start stop with
    | none => none
    | some window =>
      let buf := collectBytes window
      if slotsPerRecord = 1 then some (.ok { intValue := plainvec.getD start 0, jsonString := [] })
      else if jsonValid buf then some (.ok { intValue := 0, jsonString := buf })
      else some (.error .notValidJSON)

/-- The window-extraction composite used by `DecryptResult` step 3: slice the
window `[start, start+s)` (panic modelled by `none`) and collect bytes up to
the first zero slot. -/
def extractWindow (plainvec : List Nat) (start slotsPerRec : Nat) : Option (List Nat) :=
  (goSlice plainvec start (start + slotsPerRec)).map collectBytes

/-- Modelled from the spec: removal of the trailing run of zero bytes, the
comparison notion named by the round-trip property ("up to trailing-zero
stripping"). -/
def stripTrailingZeros (bytes : List Nat) : List Nat :=
  (bytes.reverse.dropWhile (fun b => b = 0)).reverse

/-! ### Pointwise characterisation of the write loops -/

theorem writeLoop_length (v : List Nat) (start : Nat) (f : Nat → Nat) :
    ∀ c, (writeLoop v start f c).length = v.length
  | 0 => rfl
  | c + 1 => by
    simp only [writeLoop, List.length_set]
    exact writeLoop_length v start f c

theorem writeLoop_getD (v : List Nat) (start : Nat) (f : Nat → Nat) :
    ∀ c, start + c ≤ v.length → ∀ k,
      (writeLoop v start f c).getD k 0 =
        if start ≤ k ∧ k < start + c then f (k - start) else v.getD k 0 := by
  intro c
  induction c with
  | zero =>
    intro _ k
    simp only [writeLoop]
    rw [if_neg (by omega)]
  | succ c ih =>
    intro hc k
    have hlen : (writeLoop v start f c).length = v.length := writeLoop_length v start f c
    simp only [writeLoop]
    rw [List.getD_eq_getElem?_getD, List.getElem?_set]
    by_cases hk : start + c = k
    · subst hk
      have hin : start + c < (writeLoop v start f c).length := by omega
      rw [if_pos rfl, if_pos hin]
      have hcond : start ≤ start + c ∧ start + c < start + (c + 1) := by omega
      rw [if_pos hcond]
      simp
    · rw [if_neg hk, ← List.getD_eq_getElem?_getD, ih (by omega) k]
      by_cases h2 : start ≤ k ∧ k < start + c
      · rw [if_pos h2, if_pos (by omega)]
      · rw [if_neg h2, if_neg (by omega)]

theorem replicate_getD (N k : Nat) : (List.replicate N (0 : Nat)).getD k 0 = 0 := by
  rcases Nat.lt_or_ge k N with h | h
  · rw [List.getD_eq_getElem _ _ (by simpa using h)]
    simp
  · exact List.getD_eq_default _ _ (by simpa using h)

theorem packRecord_length (packed : List Nat) (start : Nat) (recBytes : List Nat)
    (s : Nat) : (packRecord packed start recBytes s).length = packed.length :=
  writeLoop_length packed start _ _

theorem packRecord_getD (packed : List Nat) (start : Nat) (recBytes : List Nat)
    (s : Nat) (h : start + s ≤ packed.length) (k : Nat) :
    (packRecord packed start recBytes s).getD k 0 =
      if start ≤ k ∧ k < start + min recBytes.length s then recBytes.getD (k - start) 0
      else packed.getD k 0 := by
  have hmin : start + min recBytes.length s ≤ packed.length := by
    have := Nat.min_le_right recBytes.length s
    omega
  exact writeLoop_getD packed start _ _ hmin k

theorem packFrom_length (s N : Nat) :
    ∀ (rest : List (List Nat)) (recIdx : Nat) (packed : List Nat),
      (packFrom s N rest recIdx packed).length = packed.length
  | [], _, _ => rfl
  | recBytes :: rest, recIdx, packed => by
    rw [packFrom]
    split
    · rfl
    · rw [packFrom_length s N rest (recIdx + 1) _]
      exact packRecord_length _ _ _ _

theorem packFrom_spec (s N : Nat) :
    ∀ (rest : List (List Nat)) (recIdx : Nat) (packed : List Nat),
      packed.length = N →
      (recIdx + rest.length) * s ≤ N →
      (∀ k, recIdx * s ≤ k → packed.getD k 0 = 0) →
      (∀ k, k < recIdx * s →
         (packFrom s N rest recIdx packed).getD k 0 = packed.getD k 0) ∧
      (∀ m (hm : m < rest.length) j, j < min (rest.get ⟨m, hm⟩).length s →
         (packFrom s N rest recIdx packed).getD ((recIdx + m) * s + j) 0
           = (rest.get ⟨m, hm⟩).getD j 0) ∧
      (∀ m (hm : m < rest.length) j, (rest.get ⟨m, hm⟩).length ≤ j → j < s →
         (packFrom s N rest recIdx packed).getD ((recIdx + m) * s + j) 0 = 0) ∧
      (∀ k, (recIdx + rest.length) * s ≤ k →
         (packFrom s N rest recIdx packed).getD k 0 = 0)
  | [], recIdx, packed => by
    intro _ _ hzero
    refine ⟨fun k _ => rfl, fun m hm => absurd hm (by simp), fun m hm => absurd hm (by simp), ?_⟩
    intro k hk
    exact hzero k (by simpa using hk)
  | recBytes :: rest, recIdx, packed => by
    intro hlen hcap hzero
    have hmono : (recIdx + 1) * s ≤ (recIdx + (recBytes :: rest).length) * s :=
      Nat.mul_le_mul_right s (by simp only [List.length_cons]; omega)
    have hstop : recIdx * s + s ≤ N := by
      have h1 : (recIdx + 1) * s = recIdx * s + s := by ring
      omega
    rw [packFrom, if_neg (by omega)]
    set packed' := packRecord packed (recIdx * s) recBytes s with hpacked'
    have hlen' : packed'.length = N := by
      rw [hpacked', packRecord_length]; exact hlen
    have hbound : recIdx * s + s ≤ packed.length := by omega
    have hzero' : ∀ k, (recIdx + 1) * s ≤ k → packed'.getD k 0 = 0 := by
      intro k hk
      rw [hpacked', packRecord_getD packed _ recBytes s hbound k]
      have h1 : (recIdx + 1) * s = recIdx * s + s := by ring
      have hmin := Nat.min_le_right recBytes.length s
      rw [if_neg (by omega)]
      exact hzero k (by omega)
    have hcap' : ((recIdx + 1) + rest.length) * s ≤ N := by
      have h5 : (recIdx + 1) + rest.length = recIdx + (recBytes :: rest).length := by
        simp only [List.length_cons]; omega
      rw [h5]; exact hcap
    obtain ⟨ih1, ih2, ih3, ih4⟩ := packFrom_spec s N rest (recIdx + 1) packed' hlen' hcap' hzero'
    have hsucc : (recIdx + 1) * s = recIdx * s + s := by ring
    refine ⟨?_, ?_, ?_, ?_⟩
    · intro k hk
      rw [ih1 k (by omega)]
      rw [hpacked', packRecord_getD packed _ recBytes s hbound k, if_neg (by omega)]
    · intro m hm j hj
      match m with
      | 0 =>
        have hjs : j < s := lt_of_lt_of_le hj (Nat.min_le_right _ _)
        have hpos : (recIdx + 0) * s + j = recIdx * s + j := by ring
        rw [hpos, ih1 (recIdx * s + j) (by omega)]
        rw [hpacked', packRecord_getD packed _ recBytes s hbound _]
        have hj' : j < min recBytes.length s := by simpa using hj
        rw [if_pos ⟨by omega, by omega⟩]
        simp
      | m' + 1 =>
        have hm' : m' < rest.length := by simpa using hm
        have hpos : (recIdx + (m' + 1)) * s + j = ((recIdx + 1) + m') * s + j := by ring
        rw [hpos]
        have := ih2 m' hm' j (by simpa using hj)
        simpa using this
    · intro m hm j hjl hjs
      match m with
      | 0 =>
        have hpos : (recIdx + 0) * s + j = recIdx * s + j := by ring
        rw [hpos, ih1 (recIdx * s + j) (by omega)]
        rw [hpacked', packRecord_getD packed _ recBytes s hbound _]
        have hmin : min recBytes.length s ≤ recBytes.length := Nat.min_le_left _ _
        have hjl' : recBytes.length ≤ j := by simpa using hjl
        rw [if_neg (by omega)]
        exact hzero _ (by omega)
      | m' + 1 =>
        have hm' : m' < rest.length := by simpa using hm
        have hpos : (recIdx + (m' + 1)) * s + j = ((recIdx + 1) + m') * s + j := by ring
        rw [hpos]
        exact ih3 m' hm' j (by simpa using hjl) hjs
    · intro k hk
      apply ih4 k
      have h5 : ((recIdx + 1) + rest.length) * s = (recIdx + (recBytes :: rest).length) * s := by
        have h6 : (recIdx + 1) + rest.length = recIdx + (recBytes :: rest).length := by
          simp only [List.length_cons]; omega
        rw [h6]
      omega

/-! ### Claim C7: packing definition -/

/-- Claim C7: for every record list, slot width `s` and ring size `N` with
`n·s ≤ N`, the packed vector `V` of length `N` satisfies
`V[i·s+j] = r_i[j]` for `j < min(|r_i|, s)`, `V[i·s+j] = 0` for
`|r_i| ≤ j < s`, and `V[k] = 0` for every `k` outside `[0, n·s)`. -/
theorem pack_window_layout (records : List (List Nat)) (s N : Nat)
    (hcap : records.length * s ≤ N) :
    (pack records s N).length = N ∧
    (∀ i (hi : i < records.length) j, j < min (records.get ⟨i, hi⟩).length s →
       (pack records s N).getD (i * s + j) 0 = (records.get ⟨i, hi⟩).getD j 0) ∧
    (∀ i (hi : i < records.length) j, (records.get ⟨i, hi⟩).length ≤ j → j < s →
       (pack records s N).getD (i * s + j) 0 = 0) ∧
    (∀ k, records.length * s ≤ k → (pack records s N).getD k 0 = 0) := by
  have hlen : (List.replicate N (0 : Nat)).length = N := by simp
  obtain ⟨h1, h2, h3, h4⟩ := packFrom_spec s N records 0 (List.replicate N 0) hlen
    (by simpa using hcap) (fun k _ => replicate_getD N k)
  refine ⟨?_, ?_, ?_, ?_⟩
  · rw [pack, packFrom_length]; exact hlen
  · intro i hi j hj
    have h := h2 i hi j hj
    simpa [pack] using h
  · intro i hi j hjl hjs
    have h := h3 i hi j hjl hjs
    simpa [pack] using h
  · intro k hk
    have h := h4 k (by simpa using hk)
    simpa [pack] using h

/-- Witness for C7 at a concrete input: `pack [[1,2],[3]] 2 8` places record
bytes, pads the short record with 0 and zeroes the unallocated tail. -/
theorem pack_window_layout_witness :
    (pack [[1, 2], [3]] 2 8).getD (0 * 2 + 1) 0 = 2 ∧
    (pack [[1, 2], [3]] 2 8).getD (1 * 2 + 1) 0 = 0 ∧
    (pack [[1, 2], [3]] 2 8).getD 5 0 = 0 := by
  obtain ⟨_, h2, h3, h4⟩ := pack_window_layout [[1, 2], [3]] 2 8 (by decide)
  exact ⟨h2 0 (by decide) 1 (by decide), h3 1 (by decide) 1 (by decide) (by decide),
    h4 5 (by decide)⟩

/-! ### Claim C6: ChooseLogN minimality -/

/-- Claim C6 (amended): for every `n > 0` and `s > 0` whose machine-int
product does not overflow (`n·s < 2^63`), `ChooseLogN n s` returns the
smallest `logN ∈ {13,14,15}` with `n·s ≤ 2^logN`, and fails with the
capacity error when `n·s > 2^15`. (When the product overflows,
`requiredSlots := n * slotsPerRec` wraps at 64 bits and the selection is
made on the wrapped value instead.) -/
theorem chooseLogN_minimal (n s : Int) (hn : 0 < n) (hs : 0 < s)
    (hfit : n * s < 2 ^ 63) :
    (∀ l, ChooseLogN n s = .ok l →
       l ∈ supportedLogN ∧ n * s ≤ (2 : Int) ^ l ∧
       ∀ l' ∈ supportedLogN, n * s ≤ (2 : Int) ^ l' → l ≤ l') ∧
    ((2 : Int) ^ 15 < n * s → ChooseLogN n s = .error .capacityExceeded) ∧
    (n * s ≤ (2 : Int) ^ 15 → ∃ l, ChooseLogN n s = .ok l) := by
  have hguard : ¬(n ≤ 0 ∨ s ≤ 0) := by omega
  have h13 : ((2 : Int) ^ 13) = 8192 := by norm_num
  have h14 : ((2 : Int) ^ 14) = 16384 := by norm_num
  have h15 : ((2 : Int) ^ 15) = 32768 := by norm_num
  have hpos : (0 : Int) < n * s := mul_pos hn hs
  have hw : wrap64 (n * s) = n * s := by
    have h63 : ((2 : Int) ^ 63) = 9223372036854775808 := by norm_num
    have h64 : ((2 : Int) ^ 64) = 18446744073709551616 := by norm_num
    rw [h63] at hfit
    rw [wrap64, h63, h64]
    omega
  have hloop : chooseLogNLoop (n * s) supportedLogN =
      (if n * s ≤ (2 : Int) ^ 13 then some 13
       else if n * s ≤ (2 : Int) ^ 14 then some 14
       else if n * s ≤ (2 : Int) ^ 15 then some 15 else none) := by
    simp [chooseLogNLoop, supportedLogN]
  have hCh : ChooseLogN n s =
      (match (if n * s ≤ (2 : Int) ^ 13 then some 13
              else if n * s ≤ (2 : Int) ^ 14 then some 14
              else if n * s ≤ (2 : Int) ^ 15 then some 15 else none : Option Nat) with
       | some logN => .ok logN
       | none => .error .capacityExceeded) := by
    rw [ChooseLogN, if_neg hguard, hw, hloop]
  by_cases c13 : n * s ≤ (2 : Int) ^ 13
  · rw [hCh, if_pos c13]
    refine ⟨?_, ?_, ?_⟩
    · rintro l ⟨rfl⟩
      refine ⟨by simp [supportedLogN], c13, ?_⟩
      intro l' hl' _
      simp only [supportedLogN, List.mem_cons, List.mem_singleton] at hl'
      rcases hl' with rfl | rfl | rfl | h
      · omega
      · omega
      · omega
      · simp at h
    · intro h; omega
    · intro _; exact ⟨13, rfl⟩
  · by_cases c14 : n * s ≤ (2 : Int) ^ 14
    · rw [hCh, if_neg c13, if_pos c14]
      refine ⟨?_, ?_, ?_⟩
      · rintro l ⟨rfl⟩
        refine ⟨by simp [supportedLogN], c14, ?_⟩
        intro l' hl' hle
        simp only [supportedLogN, List.mem_cons, List.mem_singleton] at hl'
        rcases hl' with rfl | rfl | rfl | h
        · exact absurd hle c13
        · omega
        · omega
        · simp at h
      · intro h; omega
      · intro _; exact ⟨14, rfl⟩
    · by_cases c15 : n * s ≤ (2 : Int) ^ 15
      · rw [hCh, if_neg c13, if_neg c14, if_pos c15]
        refine ⟨?_, ?_, ?_⟩
        · rintro l ⟨rfl⟩
          refine ⟨by simp [supportedLogN], c15, ?_⟩
          intro l' hl' hle
          simp only [supportedLogN, List.mem_cons, List.mem_singleton] at hl'
          rcases hl' with rfl | rfl | rfl | h
          · exact absurd hle c13
          · exact absurd hle c14
          · omega
          · simp at h
        · intro h; omega
        · intro _; exact ⟨15, rfl⟩
      · rw [hCh, if_neg c13, if_neg c14, if_neg c15]
        refine ⟨?_, ?_, ?_⟩
        · rintro l ⟨⟩
        · intro _; rfl
        · intro h; exact absurd h c15

/-- Counterexample to C6 as stated: at `n = s = 2^32` — positive values of
a 64-bit Go `int` — the machine product `n * slotsPerRec` wraps to 0, so
`ChooseLogN` returns `logN = 13` even though the mathematical product
`2^64` exceeds `2^15`: neither the minimality half nor the
capacity-failure half of the claim holds at this input. -/
theorem chooseLogN_wrap_cex :
    ChooseLogN (2 ^ 32) (2 ^ 32) = .ok 13 ∧
    (2 : Int) ^ 15 < (2 : Int) ^ 32 * (2 : Int) ^ 32 := by
  constructor
  · decide
  · norm_num

/-- Witness for the amended C6: at `n = 3, s = 8` (no overflow) the
smallest feasible exponent 13 is chosen, and an over-capacity product is
rejected. -/
theorem chooseLogN_minimal_witness :
    (ChooseLogN 3 8 = .ok 13 ∧ (3 : Int) * 8 ≤ (2 : Int) ^ 13) ∧
    ChooseLogN 4096 9 = .error .capacityExceeded := by
  constructor
  · obtain ⟨_h1, _, h3⟩ := chooseLogN_minimal 3 8 (by decide) (by decide) (by norm_num)
    obtain ⟨l, hl⟩ := h3 (by decide)
    have := _h1 l hl
    constructor
    · have hl13 : l = 13 := by
        have hmem := this.1
        have hmin := this.2.2 13 (by decide) (by decide)
        simp only [supportedLogN, List.mem_cons, List.mem_singleton] at hmem
        rcases hmem with rfl | rfl | rfl | h
        · rfl
        · omega
        · omega
        · simp at h
      rw [hl13] at hl; exact hl
    · decide
  · exact (chooseLogN_minimal 4096 9 (by decide) (by decide) (by norm_num)).2.1 (by decide)

/-! ### Claim C1: end-to-end round trip -/

theorem pack_length (records : List (List Nat)) (s N : Nat) :
    (pack records s N).length = N := by
  rw [pack, packFrom_length]; simp

theorem selector_getD (N start s k : Nat) (h : start + s ≤ N) :
    (writeLoop (List.replicate N 0) start (fun _ => 1) s).getD k 0 =
      if start ≤ k ∧ k < start + s then 1 else 0 := by
  rw [writeLoop_getD _ _ _ s (by simpa using h) k]
  by_cases hk : start ≤ k ∧ k < start + s
  · rw [if_pos hk, if_pos hk]
  · rw [if_neg hk, if_neg hk]
    exact replicate_getD N k

theorem EncryptQueryVec_ok (N index dbSize s : Nat)
    (hidx : index < dbSize) (hcap : dbSize * s ≤ N) :
    EncryptQueryVec N index dbSize s =
      .ok (writeLoop (List.replicate N 0) (index * s) (fun _ => 1) s) := by
  have hwin : index * s + s ≤ N := by
    have h1 : (index + 1) * s ≤ dbSize * s := Nat.mul_le_mul_right s (by omega)
    have h2 : (index + 1) * s = index * s + s := by ring
    omega
  rw [EncryptQueryVec, if_neg (by omega), if_neg (by omega)]
  simp only []
  rw [if_neg (by omega)]

theorem slotProduct_length (t : Nat) (a b : List Nat) :
    (slotProduct t a b).length = min a.length b.length := List.length_zipWith _ _ _

theorem slotProduct_getD (t : Nat) (a b : List Nat) (k : Nat)
    (ha : k < a.length) (hb : k < b.length) :
    (slotProduct t a b).getD k 0 = a.getD k 0 * b.getD k 0 % t := by
  have hk : k < (slotProduct t a b).length := by
    rw [slotProduct_length]; omega
  rw [List.getD_eq_getElem _ _ hk, List.getD_eq_getElem _ _ ha, List.getD_eq_getElem _ _ hb]
  simp only [slotProduct]
  exact List.getElem_zipWith

theorem ext_getD (l1 l2 : List Nat) (h : l1.length = l2.length)
    (h2 : ∀ n, n < l1.length → l1.getD n 0 = l2.getD n 0) : l1 = l2 := by
  apply List.ext_getElem h
  intro n h1 hh2
  rw [← List.getD_eq_getElem l1 0 h1, ← List.getD_eq_getElem l2 0 hh2]
  exact h2 n h1

theorem drop_take_getD (l : List Nat) (start c n : Nat) (h : n < c)
    (h2 : start + c ≤ l.length) :
    ((l.drop start).take c).getD n 0 = l.getD (start + n) 0 := by
  have hn : n < ((l.drop start).take c).length := by
    simp only [List.length_take, List.length_drop]
    omega
  rw [List.getD_eq_getElem _ _ hn,
    List.getD_eq_getElem _ _ (show start + n < l.length by omega)]
  rw [List.getElem_take, List.getElem_drop]

theorem collectBytes_zeros (zs : List Nat) (hz : ∀ b ∈ zs, b = 0) :
    collectBytes zs = [] := by
  cases zs with
  | nil => rfl
  | cons a rest =>
    have : a = 0 := hz a (by simp)
    simp [collectBytes, this]

theorem collectBytes_append_zerofree (p zs : List Nat)
    (hp : ∀ b ∈ p, b ≠ 0) (hb : ∀ b ∈ p, b < 256) (hz : ∀ b ∈ zs, b = 0) :
    collectBytes (p ++ zs) = p := by
  induction p with
  | nil => simpa using collectBytes_zeros zs hz
  | cons a rest ih =>
    have ha : a ≠ 0 := hp a (by simp)
    have ha2 : a < 256 := hb a (by simp)
    simp only [List.cons_append, collectBytes, if_neg ha, Nat.mod_eq_of_lt ha2]
    show a :: collectBytes (rest ++ zs) = a :: rest
    rw [ih (fun b hbm => hp b (by simp [hbm])) (fun b hbm => hb b (by simp [hbm]))]

theorem stripTrailingZeros_append (p zs : List Nat)
    (hp : ∀ b ∈ p, b ≠ 0) (hz : ∀ b ∈ zs, b = 0) :
    stripTrailingZeros (p ++ zs) = p := by
  rw [stripTrailingZeros, List.reverse_append]
  rw [List.dropWhile_append_of_pos (by
    intro a ha
    have := hz a (by simpa using ha)
    simp [this])]
  cases hrev : p.reverse with
  | nil =>
    have : p = [] := by simpa using congrArg List.reverse hrev
    simp [this]
  | cons a rest =>
    have ha : a ∈ p := by
      have : a ∈ p.reverse := by rw [hrev]; simp
      simpa using this
    have ha0 : a ≠ 0 := hp a ha
    rw [List.dropWhile_cons_of_neg (by simp [ha0])]
    rw [← hrev, List.reverse_reverse]

/-- The product window `[index·s, (index+1)·s)` of selector × packed DB is
exactly the queried record padded with zeros to the slot width. -/
theorem product_window (t s N index : Nat) (records : List (List Nat))
    (hidx : index < records.length) (hcap : records.length * s ≤ N)
    (hlen : ∀ r ∈ records, r.length ≤ s)
    (hbyte : ∀ r ∈ records, ∀ b ∈ r, b < 256)
    (ht : 255 < t) :
    (((slotProduct t (writeLoop (List.replicate N 0) (index * s) (fun _ => 1) s)
        (pack records s N)).drop (index * s)).take s) =
      records.get ⟨index, hidx⟩ ++
        List.replicate (s - (records.get ⟨index, hidx⟩).length) 0 := by
  set r := records.get ⟨index, hidx⟩ with hr
  have hmem : r ∈ records := List.get_mem records index hidx
  have hrs : r.length ≤ s := hlen r hmem
  have hwin : index * s + s ≤ N := by
    have h1 : (index + 1) * s ≤ records.length * s := Nat.mul_le_mul_right s (by omega)
    have h2 : (index + 1) * s = index * s + s := by ring
    omega
  have hsel : (writeLoop (List.replicate N 0) (index * s) (fun _ => 1) s).length = N := by
    rw [writeLoop_length]; simp
  have hpk : (pack records s N).length = N := pack_length records s N
  have hprod : (slotProduct t (writeLoop (List.replicate N 0) (index * s) (fun _ => 1) s)
      (pack records s N)).length = N := by
    rw [slotProduct_length, hsel, hpk]; omega
  obtain ⟨_, h2, h3, _⟩ := packFrom_spec s N records 0 (List.replicate N 0)
    (by simp) (by simpa using hcap) (fun k _ => replicate_getD N k)
  apply ext_getD
  · simp only [List.length_take, List.length_drop, List.length_append,
      List.length_replicate, hprod]
    omega
  · intro n hn
    have hns : n < s := by
      have h6 := hn
      simp only [List.length_take, List.length_drop, hprod] at h6
      omega
    rw [drop_take_getD _ _ _ _ hns (by omega)]
    rw [slotProduct_getD t _ _ _ (by omega) (by omega)]
    rw [selector_getD N (index * s) s _ hwin,
      if_pos ⟨by omega, by omega⟩]
    have hrhslen : n < (r ++ List.replicate (s - r.length) 0).length := by
      simp only [List.length_append, List.length_replicate]
      omega
    rcases Nat.lt_or_ge n r.length with hcase | hcase
    · have hpack : (pack records s N).getD (index * s + n) 0 = r.getD n 0 := by
        have := h2 index hidx n (by rw [← hr]; omega)
        simpa [pack, ← hr] using this
      rw [hpack]
      have hb : r.getD n 0 < 256 := by
        rw [List.getD_eq_getElem _ _ hcase]
        exact hbyte r hmem _ (List.getElem_mem hcase)
      rw [one_mul, Nat.mod_eq_of_lt (by omega)]
      rw [List.getD_eq_getElem _ _ hcase,
        List.getD_eq_getElem _ _ hrhslen]
      exact (List.getElem_append_left hcase).symm
    · have hpack : (pack records s N).getD (index * s + n) 0 = 0 := by
        have := h3 index hidx n (by rw [← hr]; omega) hns
        simpa [pack] using this
      rw [hpack, Nat.mul_zero, Nat.zero_mod]
      rw [List.getD_eq_getElem _ _ hrhslen]
      rw [List.getElem_append_right hcase]
      simp

/-- Claim C1 (amended): for every supported parameter set (plaintext modulus
`t > 255`), every `(n, s)` with `n·s ≤ N`, every record list with
`|r_i| ≤ s` and byte-valued entries, and every index `i < n`, extracting
window `i` from the slot-wise product of the encrypted one-hot-window
selector and the packed database returns exactly `r_i` up to trailing-zero
stripping, provided every zero byte of `r_i` lies in its trailing run of
zeros (for such records the first-zero stop of `DecryptResult` coincides
with trailing-zero stripping; an interior zero truncates instead). -/
theorem pir_roundtrip_zerofree (N t s index : Nat) (records : List (List Nat))
    (hidx : index < records.length) (hcap : records.length * s ≤ N)
    (hlen : ∀ r ∈ records, r.length ≤ s)
    (hbyte : ∀ r ∈ records, ∀ b ∈ r, b < 256)
    (ht : 255 < t)
    (p z : List Nat)
    (hdecomp : records.get ⟨index, hidx⟩ = p ++ z)
    (hp : ∀ b ∈ p, b ≠ 0) (hz : ∀ b ∈ z, b = 0) :
    ∃ sel, EncryptQueryVec N index records.length s = .ok sel ∧
      extractWindow (slotProduct t sel (pack records s N)) (index * s) s =
        some (stripTrailingZeros (records.get ⟨index, hidx⟩)) := by
  refine ⟨_, EncryptQueryVec_ok N index records.length s hidx hcap, ?_⟩
  have hmem : records.get ⟨index, hidx⟩ ∈ records := List.get_mem records index hidx
  have hwin : index * s + s ≤ N := by
    have h1 : (index + 1) * s ≤ records.length * s := Nat.mul_le_mul_right s (by omega)
    have h2 : (index + 1) * s = index * s + s := by ring
    omega
  have hprod : (slotProduct t (writeLoop (List.replicate N 0) (index * s) (fun _ => 1) s)
      (pack records s N)).length = N := by
    rw [slotProduct_length, pack_length, writeLoop_length]
    simp
  simp only [extractWindow, goSlice]
  rw [if_pos ⟨by omega, by omega⟩]
  have htake : index * s + s - index * s = s := by omega
  rw [htake, Option.map_some']
  congr 1
  rw [product_window t s N index records hidx hcap hlen hbyte ht]
  rw [hdecomp, List.append_assoc]
  have hbp : ∀ b ∈ p, b < 256 := by
    intro b hbm
    exact hbyte _ hmem b (by rw [hdecomp]; exact List.mem_append_left z hbm)
  have hztail : ∀ b ∈ z ++ List.replicate (s - (p ++ z).length) 0, b = 0 := by
    intro b hbm
    rcases List.mem_append.mp hbm with hbz | hbr
    · exact hz b hbz
    · exact List.eq_of_mem_replicate hbr
  rw [collectBytes_append_zerofree p _ hp hbp hztail]
  rw [stripTrailingZeros_append p z hp hz]

/-- Witness for the amended C1 at the spec's minimal scenario: 3 records,
`s = 8`, querying index 1 returns the bytes of record 1. -/
theorem pir_roundtrip_zerofree_witness :
    ∃ sel, EncryptQueryVec 24 1 3 8 = .ok sel ∧
      extractWindow
        (slotProduct 65537 sel
          (pack [[97, 98, 99], [100, 101], [102, 103, 104, 105, 106]] 8 24)) (1 * 8) 8 =
      some (stripTrailingZeros [100, 101]) := by
  exact pir_roundtrip_zerofree 24 65537 8 1
    [[97, 98, 99], [100, 101], [102, 103, 104, 105, 106]]
    (by decide) (by decide)
    (by intro r hr; fin_cases hr <;> decide)
    (by intro r hr; fin_cases hr <;> decide)
    (by decide) [100, 101] [] (by decide)
    (by intro b hb; fin_cases hb <;> decide)
    (by intro b hb; simp at hb)

/-- Counterexample to C1 as stated: the single record `[1,0,2]` (interior
zero byte) with `s = 8`, `N = 8` satisfies every hypothesis of the claim,
yet extraction stops at the first zero slot and returns `[1]`, while the
record stripped of trailing zeros is `[1,0,2]`. -/
theorem pir_roundtrip_cex :
    EncryptQueryVec 8 0 1 8 = .ok (List.replicate 8 1) ∧
    extractWindow (slotProduct 65537 (List.replicate 8 1) (pack [[1, 0, 2]] 8 8))
        (0 * 8) 8 = some [1] ∧
    stripTrailingZeros [1, 0, 2] = [1, 0, 2] ∧
    some [1] ≠ some (stripTrailingZeros [1, 0, 2]) := by decide

/-! ### Claims C2, C3, C8: initLedger state discipline -/

theorem CalcSlotsPerRec_mod8 (records : List (List Nat)) :
    CalcSlotsPerRec records % 8 = 0 := by
  simp only [CalcSlotsPerRec]
  split
  · decide
  · exact Nat.mul_mod_left _ 8

/-- Claim C2 (amended): `initLedger` is atomic only through parameter
construction. A failure of logN auto-selection or of the parameter build
leaves the whole state unchanged, and no failing call ever updates `m_DB`;
but a failure of record generation, of the capacity check or of encoding
happens after `params` (and, for the latter two, `records`, `nRecords`,
`slotsPerRec`) have already been overwritten in place. -/
theorem initLedger_rollback_extent (st : LedgerState) (n maxJSON logN : Int)
    (logQi logPi : List Nat) (t : Nat)
    (lib : ParametersLiteral → Except Unit Parameters)
    (genResult : Except Unit (List (List Nat))) (encodeOK : Bool) :
    (∀ e, (initLedger st n maxJSON logN logQi logPi t lib genResult encodeOK).2 = some e →
       (initLedger st n maxJSON logN logQi logPi t lib genResult encodeOK).1.m_DB = st.m_DB) ∧
    (∀ e, (initLedger st n maxJSON logN logQi logPi t lib genResult encodeOK).2 = some e →
       e = InitError.chooseLogNFailed ∨ e = InitError.paramsFailed →
       (initLedger st n maxJSON logN logQi logPi t lib genResult encodeOK).1 = st) := by
  cases hres : resolveLogN n maxJSON logN with
  | error e' =>
    exact ⟨fun e he => by simp_all [initLedger, hres],
           fun e he hor => by rcases hor with rfl | rfl <;> simp_all [initLedger, hres]⟩
  | ok l =>
    cases hbp : BuildParamsFromHint lib { logN := l, logQi := logQi, logPi := logPi, t := t } with
    | error u =>
      exact ⟨fun e he => by simp_all [initLedger, hres, hbp],
             fun e he hor => by rcases hor with rfl | rfl <;> simp_all [initLedger, hres, hbp]⟩
    | ok p =>
      cases genResult with
      | error u =>
        exact ⟨fun e he => by simp_all [initLedger, hres, hbp],
               fun e he hor => by rcases hor with rfl | rfl <;> simp_all [initLedger, hres, hbp]⟩
      | ok gen =>
        by_cases hcap : gen.length * CalcSlotsPerRec gen > p.maxSlots
        · exact ⟨fun e he => by simp_all [initLedger, hres, hbp],
                 fun e he hor => by rcases hor with rfl | rfl <;> simp_all [initLedger, hres, hbp]⟩
        · cases encodeOK with
          | true =>
            exact ⟨fun e he => by simp_all [initLedger, hres, hbp, if_neg hcap],
                   fun e he hor => by
                     rcases hor with rfl | rfl <;> simp_all [initLedger, hres, hbp, if_neg hcap]⟩
          | false =>
            exact ⟨fun e he => by simp_all [initLedger, hres, hbp, if_neg hcap],
                   fun e he hor => by
                     rcases hor with rfl | rfl <;> simp_all [initLedger, hres, hbp, if_neg hcap]⟩

/-- Counterexample to C2 as stated: starting from an initialized state with
`logN = 13`, a call whose record generation fails (the REST server's
`GenerateRecords` rejects `maxJSON = 65`, which is not in its allowed set)
returns the generation error, yet `params` has already been replaced by the
freshly built `logN = 14` parameters — the observable state is not what it
was before the call. -/
theorem initLedger_rollback_cex :
    ((initLedger
        { params := { logN := 13, logQi := [54], logPi := [54], t := 65537 }
        , m_DB := some [1], nRecords := 1, slotsPerRec := 8, records := [[1]] }
        1 65 14 [] [] 65537 libOk (.error ()) true).2 = some .genFailed) ∧
    ((initLedger
        { params := { logN := 13, logQi := [54], logPi := [54], t := 65537 }
        , m_DB := some [1], nRecords := 1, slotsPerRec := 8, records := [[1]] }
        1 65 14 [] [] 65537 libOk (.error ()) true).1.params.logN = 14) ∧
    (13 : Nat) ≠ 14 := by decide

/-- Witness for the amended C2: on the failing call of the counterexample
input, `m_DB` keeps its prior value; and a call whose parameter build fails
leaves the state exactly unchanged. -/
theorem initLedger_rollback_extent_witness :
    ((initLedger
        { params := { logN := 13, logQi := [54], logPi := [54], t := 65537 }
        , m_DB := some [1], nRecords := 1, slotsPerRec := 8, records := [[1]] }
        1 65 14 [] [] 65537 libOk (.error ()) true).1.m_DB = some [1]) ∧
    ((initLedger initialState 1 64 13 [] [] 65537 (fun _ => .error ())
        (.ok [[1]]) true).1 = initialState) := by
  constructor
  · exact (initLedger_rollback_extent
      { params := { logN := 13, logQi := [54], logPi := [54], t := 65537 }
      , m_DB := some [1], nRecords := 1, slotsPerRec := 8, records := [[1]] }
      1 65 14 [] [] 65537 libOk (.error ()) true).1 .genFailed (by decide)
  · exact (initLedger_rollback_extent initialState 1 64 13 [] [] 65537
      (fun _ => .error ()) (.ok [[1]]) true).2 .paramsFailed (by decide) (Or.inr rfl)

/-- Claim C3: whenever the generated record count and computed slot width
exceed the ring capacity (`n·s > N`), `initLedger` fails with the capacity
error and does not publish a packed database for that request (`m_DB` keeps
its prior value). -/
theorem initLedger_capacity_reject (st : LedgerState) (n maxJSON logN : Int)
    (logQi logPi : List Nat) (t : Nat)
    (lib : ParametersLiteral → Except Unit Parameters)
    (genResult : Except Unit (List (List Nat))) (encodeOK : Bool)
    (l : Int) (p : Parameters) (recs : List (List Nat))
    (h1 : resolveLogN n maxJSON logN = .ok l)
    (h2 : BuildParamsFromHint lib { logN := l, logQi := logQi, logPi := logPi, t := t } = .ok p)
    (h3 : genResult = .ok recs)
    (h4 : recs.length * CalcSlotsPerRec recs > p.maxSlots) :
    (initLedger st n maxJSON logN logQi logPi t lib genResult encodeOK).2 =
      some .capacityExceeded ∧
    (initLedger st n maxJSON logN logQi logPi t lib genResult encodeOK).1.m_DB = st.m_DB := by
  subst h3
  constructor
  · simp [initLedger, h1, h2, h4]
  · simp [initLedger, h1, h2, h4]

/-- Witness for C3: one record of 8193 bytes forces `s = 8200 > 2^13`
slots, so an init at `logN = 13` is rejected and `m_DB` stays unset. -/
theorem initLedger_capacity_reject_witness :
    (initLedger initialState 1 512 13 [] [] 65537 libOk
        (.ok [List.replicate 8193 1]) true).2 = some .capacityExceeded ∧
    (initLedger initialState 1 512 13 [] [] 65537 libOk
        (.ok [List.replicate 8193 1]) true).1.m_DB = none := by
  exact initLedger_capacity_reject initialState 1 512 13 [] [] 65537 libOk
    (.ok [List.replicate 8193 1]) true 13
    { logN := 13, logQi := [54], logPi := [54], t := 65537 }
    [List.replicate 8193 1] (by decide) (by decide) rfl
    (by norm_num [CalcSlotsPerRec, List.foldl_cons, List.foldl_nil, Parameters.maxSlots])

/-- Claim C8: after every successful `initLedger`, the metadata returned by
`getMetadata` satisfies `M.n · M.record_s ≤ 2^M.logN` and
`M.record_s ≡ 0 (mod 8)`. -/
theorem metadata_invariant (st : LedgerState) (n maxJSON logN : Int)
    (logQi logPi : List Nat) (t : Nat)
    (lib : ParametersLiteral → Except Unit Parameters)
    (genResult : Except Unit (List (List Nat))) (encodeOK : Bool)
    (hok : (initLedger st n maxJSON logN logQi logPi t lib genResult encodeOK).2 = none) :
    ∃ m, getMetadata (initLedger st n maxJSON logN logQi logPi t lib genResult encodeOK).1 =
        .ok m ∧
      m.n * m.record_s ≤ 2 ^ m.logN ∧ m.record_s % 8 = 0 := by
  cases hres : resolveLogN n maxJSON logN with
  | error e' => simp_all [initLedger, hres]
  | ok l =>
    cases hbp : BuildParamsFromHint lib { logN := l, logQi := logQi, logPi := logPi, t := t } with
    | error u => simp_all [initLedger, hres, hbp]
    | ok p =>
      cases genResult with
      | error u => simp_all [initLedger, hres, hbp]
      | ok gen =>
        by_cases hcap : gen.length * CalcSlotsPerRec gen > p.maxSlots
        · simp_all [initLedger, hres, hbp]
        · cases encodeOK with
          | false => simp_all [initLedger, hres, hbp, if_neg hcap]
          | true =>
            refine ⟨{ n := gen.length, record_s := CalcSlotsPerRec gen, logN := p.logN
                    , N := 2 ^ p.logN, t := p.t, logQi := p.logQi, logPi := p.logPi }
                  , ?_, ?_, ?_⟩
            · simp [initLedger, hres, hbp, hcap, getMetadata]
            · simpa [Parameters.maxSlots] using Nat.le_of_not_lt hcap
            · exact CalcSlotsPerRec_mod8 gen

/-- Witness for C8: a successful init of one two-byte record at `logN = 13`
yields metadata with `1 · 8 ≤ 2^13` and `8 ≡ 0 (mod 8)`. -/
theorem metadata_invariant_witness :
    ∃ m, getMetadata (initLedger initialState 1 64 13 [] [] 65537 libOk
        (.ok [[104, 105]]) true).1 = .ok m ∧
      m.n * m.record_s ≤ 2 ^ m.logN ∧ m.record_s % 8 = 0 :=
  metadata_invariant initialState 1 64 13 [] [] 65537 libOk (.ok [[104, 105]]) true rfl

/-! ### Claim C5: reads before initialization -/

theorem publicQuery_uninit_outcomes (key : List Char) :
    publicQuery initialState key = none ∨
    publicQuery initialState key = some (.error .invalidArguments) ∨
    publicQuery initialState key = some (.error .notFound) := by
  by_cases h3 : key.length < 3
  · exact Or.inl (by simp only [publicQuery]; rw [if_pos h3])
  · cases hA : goAtoi (key.drop (key.length - 3)) with
    | none =>
      refine Or.inr (Or.inl ?_)
      simp only [publicQuery, hA]
      rw [if_neg h3]
    | some idx =>
      by_cases hneg : idx < 0
      · refine Or.inr (Or.inl ?_)
        simp only [publicQuery, hA]
        rw [if_neg h3, if_pos hneg]
      · refine Or.inr (Or.inr ?_)
        simp only [publicQuery, hA]
        rw [if_neg h3, if_neg hneg, if_pos (by simp only [initialState, List.length_nil]; omega)]

/-- Counterexample to C5 as stated: before any successful init,
`getMetadata` returns metadata fabricated from the zero-value state (an ok
response, not a not-initialized error) and `publicQuery` answers
`not found` for `record000`. -/
theorem reads_before_init_cex :
    getMetadata initialState =
      .ok { n := 0, record_s := 0, logN := 0, N := 1, t := 0, logQi := [], logPi := [] } ∧
    publicQuery initialState ['r', 'e', 'c', 'o', 'r', 'd', '0', '0', '0'] =
      some (.error .notFound) := by
  exact ⟨rfl, by decide⟩

/-- Claim C5 (amended): before any successful init only `pirQuery` guards —
it returns the not-initialized error for every query; `getMetadata` answers
with metadata computed from the zero-value state, and `publicQuery` either
panics on a short key, rejects an unparsable key, or answers `not found`
(the record list being empty) — notInitialized is never reported by either. -/
theorem reads_before_init (q : Option (List Nat)) (key : List Char) :
    pirQuery initialState q = .error .notInitialized ∧
    getMetadata initialState =
      .ok { n := 0, record_s := 0, logN := 0, N := 1, t := 0, logQi := [], logPi := [] } ∧
    (publicQuery initialState key = none ∨
     publicQuery initialState key = some (.error .invalidArguments) ∨
     publicQuery initialState key = some (.error .notFound)) :=
  ⟨rfl, rfl, publicQuery_uninit_outcomes key⟩

/-! ### Claim C4: DecryptResult index range -/

/-- Counterexample to C4: `DecryptResult` never checks `index < dbSize`. At
index 2 of a 1-record database (`s = 8`, decoded vector of 16 slots), the
window slice `[16, 24)` leaves the vector: the Go code panics on the slice
(modelled `none`) instead of failing with an out-of-range error. -/
theorem decryptResult_range_cex :
    DecryptResult (List.replicate 16 0) 2 1 8 (fun _ => false) = none ∧
    (none : Option (Except ClientError Decoded)) ≠ some (.error .outOfRange) := by decide

/-- Claim C4 (amended): `DecryptResult` performs no index-range check. With
a decoded vector long enough for the database (`n·s ≤ |plainvec|`), a call
whose window `[i·s, i·s+s)` leaves the vector panics on the Go slice
(result `none`), and a call whose window fits always produces a result from
the window alone — an out-of-range failure never occurs, for any index. -/
theorem decryptResult_no_range_check (plainvec : List Nat) (index dbSize s : Nat)
    (jv : List Nat → Bool) (hlen : dbSize * s ≤ plainvec.length) :
    (plainvec.length < index * s + s →
       DecryptResult plainvec index dbSize s jv = none) ∧
    (index * s + s ≤ plainvec.length →
       ∃ r, DecryptResult plainvec index dbSize s jv = some r) := by
  constructor
  · intro hover
    simp only [DecryptResult]
    rw [if_neg (by omega)]
    have hg : goSlice plainvec (index * s) (index * s + s) = none := by
      simp only [goSlice]
      rw [if_neg (by omega)]
    rw [hg]
  · intro hfit
    have hg : goSlice plainvec (index * s) (index * s + s) =
        some ((plainvec.drop (index * s)).take (index * s + s - index * s)) := by
      simp only [goSlice]
      rw [if_pos ⟨by omega, by omega⟩]
    generalize hw : (plainvec.drop (index * s)).take (index * s + s - index * s) = w at hg
    by_cases h1 : s = 1
    · exact ⟨.ok { intValue := plainvec.getD (index * s) 0, jsonString := [] }, by
        simp only [DecryptResult, hg]
        rw [if_neg (by omega), if_pos h1]⟩
    · by_cases h2 : jv (collectBytes w) = true
      · exact ⟨.ok { intValue := 0, jsonString := collectBytes w }, by
          simp only [DecryptResult, hg]
          rw [if_neg (by omega), if_neg h1, if_pos h2]⟩
      · exact ⟨.error .notValidJSON, by
          simp only [DecryptResult, hg]
          rw [if_neg (by omega), if_neg h1, if_neg h2]⟩

/-- Witness for the amended C4: querying index 3 of a 1-record database
panics on the window slice, while index 1 (also out of range) still
produces a result — neither is an out-of-range error. -/
theorem decryptResult_no_range_check_witness :
    DecryptResult (List.replicate 16 0) 3 1 8 (fun _ => false) = none ∧
    ∃ r, DecryptResult (List.replicate 16 0) 1 1 8 (fun _ => false) = some r := by
  constructor
  · exact (decryptResult_no_range_check (List.replicate 16 0) 3 1 8 (fun _ => false)
      (by decide)).1 (by decide)
  · exact (decryptResult_no_range_check (List.replicate 16 0) 1 1 8 (fun _ => false)
      (by decide)).2 (by decide)

/-! ### Claim C10: JSON validation of multi-slot payloads -/

/-- Claim C10: for `slotsPerRecord > 1`, `DecryptResult` returns the
extracted zero-free window prefix only when the `json.Valid` oracle accepts
it; when the oracle rejects the extracted buffer the call returns the
invalid-JSON error, so raw non-JSON record bytes are never handed back. -/
theorem decryptResult_json_gate (plainvec : List Nat) (index dbSize s : Nat)
    (jv : List Nat → Bool) (hs : 1 < s) :
    (∀ d, DecryptResult plainvec index dbSize s jv = some (.ok d) →
       jv d.jsonString = true) ∧
    (∀ w, dbSize * s ≤ plainvec.length →
       goSlice plainvec (index * s) (index * s + s) = some w →
       jv (collectBytes w) = false →
       DecryptResult plainvec index dbSize s jv = some (.error .notValidJSON)) := by
  constructor
  · intro d hd
    by_cases hl : plainvec.length < dbSize * s
    · simp only [DecryptResult] at hd
      rw [if_pos hl] at hd
      simp at hd
    · cases hg : goSlice plainvec (index * s) (index * s + s) with
      | none =>
        simp only [DecryptResult, hg] at hd
        rw [if_neg hl] at hd
        cases hd
      | some w =>
        simp only [DecryptResult, hg] at hd
        rw [if_neg hl, if_neg (by omega : ¬ s = 1)] at hd
        by_cases hjv : jv (collectBytes w) = true
        · rw [if_pos hjv] at hd
          simp only [Option.some_inj, Except.ok.injEq] at hd
          rw [← hd]
          exact hjv
        · rw [if_neg hjv] at hd
          simp at hd
  · intro w hl hg hjv
    simp only [DecryptResult, hg]
    rw [if_neg (by omega), if_neg (by omega : ¬ s = 1), if_neg (by simp [hjv])]

/-- Witness for C10: a two-slot record whose bytes the oracle rejects is
answered with the invalid-JSON error. -/
theorem decryptResult_json_gate_witness :
    DecryptResult [7, 8] 0 1 2 (fun _ => false) = some (.error .notValidJSON) := by
  exact (decryptResult_json_gate [7, 8] 0 1 2 (fun _ => false) (by decide)).2
    [7, 8] (by decide) (by decide) (by decide)

/-! ### Claim C9: publicQuery key slicing -/

/-- Claim C9: the `publicQuery` / `PublicQueryCTI` handlers parse the record
index from `key[len(key)-3:]`; for every key shorter than 3 characters the
slice expression is out of bounds and the handler panics (modelled `none`)
instead of returning an invalid-arguments error, and for every key of
length at least 3 the handler is well-defined (it returns a response). -/
theorem publicQuery_key_slice (st : LedgerState) (key : List Char) :
    (key.length < 3 → publicQuery st key = none) ∧
    (3 ≤ key.length → ∃ r, publicQuery st key = some r) := by
  constructor
  · intro h
    simp only [publicQuery]
    rw [if_pos h]
  · intro h
    cases hA : goAtoi (key.drop (key.length - 3)) with
    | none =>
      exact ⟨.error .invalidArguments, by
        simp only [publicQuery, hA]
        rw [if_neg (by omega)]⟩
    | some idx =>
      by_cases hneg : idx < 0
      · exact ⟨.error .invalidArguments, by
          simp only [publicQuery, hA]
          rw [if_neg (by omega), if_pos hneg]⟩
      · by_cases hle : (st.records.length : Int) ≤ idx
        · exact ⟨.error .notFound, by
            simp only [publicQuery, hA]
            rw [if_neg (by omega), if_neg hneg, if_pos hle]⟩
        · exact ⟨.ok (st.records.getD idx.toNat []), by
            simp only [publicQuery, hA]
            rw [if_neg (by omega), if_neg hneg, if_neg hle]⟩

/-- Witness for C9: the two-character key `"ab"` makes the handler panic,
while `"record013"` is parsed and answered. -/
theorem publicQuery_key_slice_witness :
    publicQuery initialState ['a', 'b'] = none ∧
    ∃ r, publicQuery initialState ['r', 'e', 'c', 'o', 'r', 'd', '0', '1', '3'] = some r := by
  constructor
  · exact (publicQuery_key_slice initialState ['a', 'b']).1 (by decide)
  · exact (publicQuery_key_slice initialState
      ['r', 'e', 'c', 'o', 'r', 'd', '0', '1', '3']).2 (by decide)

end CPIR
